import Mathlib

/-!
Shallow embedding of the Black-Scholes pricing engine of `src/utils/black_scholes.py`
(class `BlackScholes` and the Newton-Raphson implied-volatility solver
`calculate_implied_volatility`), together with theorems settling the specification
claims about it.  `scipy.stats.norm.cdf` / `norm.pdf` are embedded as the standard
normal cumulative distribution function and density over the reals.
-/

open MeasureTheory Set

noncomputable section

/-- Standard normal probability density (embedding of `scipy.stats.norm.pdf`). -/
def normPdf (x : ℝ) : ℝ := (Real.sqrt (2 * Real.pi))⁻¹ * Real.exp (-(x ^ 2) / 2)

/-- Standard normal cumulative distribution function (embedding of `scipy.stats.norm.cdf`). -/
def normCdf (x : ℝ) : ℝ := ∫ t in Iic x, normPdf t

lemma normPdf_pos (x : ℝ) : 0 < normPdf x := by
  have h : (0 : ℝ) < Real.sqrt (2 * Real.pi) :=
    Real.sqrt_pos.mpr (by positivity)
  exact mul_pos (inv_pos.mpr h) (Real.exp_pos _)

lemma normPdf_neg (x : ℝ) : normPdf (-x) = normPdf x := by
  simp [normPdf, neg_sq]

lemma normPdf_eq_fun :
    normPdf = fun x : ℝ => (Real.sqrt (2 * Real.pi))⁻¹ * Real.exp (-(2⁻¹ : ℝ) * x ^ 2) := by
  funext x
  unfold normPdf
  congr 1
  ring_nf

lemma continuous_normPdf : Continuous normPdf := by
  unfold normPdf
  continuity

lemma integrable_normPdf : Integrable normPdf := by
  rw [normPdf_eq_fun]
  exact (integrable_exp_neg_mul_sq (by norm_num : (0:ℝ) < 2⁻¹)).const_mul _

lemma integral_normPdf : ∫ x, normPdf x = 1 := by
  rw [normPdf_eq_fun]
  rw [MeasureTheory.integral_mul_left]
  rw [integral_gaussian]
  have h2 : Real.pi / 2⁻¹ = 2 * Real.pi := by ring
  rw [h2]
  exact inv_mul_cancel₀ (ne_of_gt (Real.sqrt_pos.mpr (by positivity)))

lemma normCdf_nonneg (x : ℝ) : 0 ≤ normCdf x :=
  setIntegral_nonneg measurableSet_Iic fun t _ => (normPdf_pos t).le

lemma normCdf_le_one (x : ℝ) : normCdf x ≤ 1 := by
  rw [← integral_normPdf]
  exact setIntegral_le_integral integrable_normPdf
    (Filter.Eventually.of_forall fun t => (normPdf_pos t).le)

lemma normCdf_add_neg (x : ℝ) : normCdf x + normCdf (-x) = 1 := by
  have h1 : normCdf (-x) = ∫ t in Ioi x, normPdf t := by
    have e1 : (∫ t in Iic (-x), normPdf t) = ∫ t in Iic (-x), normPdf (-t) := by
      refine setIntegral_congr_fun measurableSet_Iic fun t _ => ?_
      exact (normPdf_neg t).symm
    have e2 : (∫ t in Iic (-x), normPdf (-t)) = ∫ t in Ioi (-(-x)), normPdf t :=
      integral_comp_neg_Iic (-x) normPdf
    rw [normCdf, e1, e2, neg_neg]
  rw [normCdf, h1]
  rw [intervalIntegral.integral_Iic_add_Ioi integrable_normPdf.integrableOn
    integrable_normPdf.integrableOn]
  exact integral_normPdf

lemma normCdf_zero : normCdf 0 = 1 / 2 := by
  have h := normCdf_add_neg 0
  rw [neg_zero] at h
  linarith

lemma normCdf_eq_add (x : ℝ) :
    normCdf x = normCdf 0 + ∫ t in (0:ℝ)..x, normPdf t := by
  have ha : IntegrableOn normPdf (Iic 0) := integrable_normPdf.integrableOn
  have hb : IntegrableOn normPdf (Iic x) := integrable_normPdf.integrableOn
  have h := intervalIntegral.integral_Iic_sub_Iic ha hb
  unfold normCdf
  linarith [h]

lemma hasDerivAt_normCdf (x : ℝ) : HasDerivAt normCdf (normPdf x) x := by
  have h : HasDerivAt (fun u => ∫ t in (0:ℝ)..u, normPdf t) (normPdf x) x :=
    (continuous_normPdf.integral_hasStrictDerivAt 0 x).hasDerivAt
  have heq : normCdf = fun u => normCdf 0 + ∫ t in (0:ℝ)..u, normPdf t :=
    funext normCdf_eq_add
  rw [heq]
  exact h.const_add (normCdf 0)

/-- Embedding of Python `str.lower()` as used in `option_type.lower()`: lowercase
every character of the string. -/
def pyLower (s : String) : String := ⟨s.data.map Char.toLower⟩

/-- Embedding of the `BlackScholes` class: the five constructor parameters stored
by `__init__` (`self.S`, `self.K`, `self.T`, `self.r`, `self.sigma`). -/
structure BlackScholes where
  S : ℝ
  K : ℝ
  T : ℝ
  r : ℝ
  sigma : ℝ

namespace BlackScholes

/-- Embedding of `BlackScholes._d1`. -/
def _d1 (bs : BlackScholes) : ℝ :=
  (Real.log (bs.S / bs.K) + (bs.r + 0.5 * bs.sigma ^ 2) * bs.T) / (bs.sigma * Real.sqrt bs.T)

/-- Embedding of `BlackScholes._d2`. -/
def _d2 (bs : BlackScholes) : ℝ :=
  bs._d1 - bs.sigma * Real.sqrt bs.T

/-- Embedding of `BlackScholes.call_price`. -/
def call_price (bs : BlackScholes) : ℝ :=
  bs.S * normCdf bs._d1 - bs.K * Real.exp (-bs.r * bs.T) * normCdf bs._d2

/-- Embedding of `BlackScholes.put_price`. -/
def put_price (bs : BlackScholes) : ℝ :=
  bs.K * Real.exp (-bs.r * bs.T) * normCdf (-bs._d2) - bs.S * normCdf (-bs._d1)

/-- Embedding of `BlackScholes.delta`. -/
def delta (bs : BlackScholes) (option_type : String) : ℝ :=
  if pyLower option_type = "call" then normCdf bs._d1 else normCdf bs._d1 - 1

/-- Embedding of `BlackScholes.gamma`. -/
def gamma (bs : BlackScholes) : ℝ :=
  normPdf bs._d1 / (bs.S * bs.sigma * Real.sqrt bs.T)

/-- Embedding of `BlackScholes.theta`. -/
def theta (bs : BlackScholes) (option_type : String) : ℝ :=
  (if pyLower option_type = "call" then
    -(bs.S * normPdf bs._d1 * bs.sigma) / (2 * Real.sqrt bs.T) -
      bs.r * bs.K * Real.exp (-bs.r * bs.T) * normCdf bs._d2
  else
    -(bs.S * normPdf bs._d1 * bs.sigma) / (2 * Real.sqrt bs.T) +
      bs.r * bs.K * Real.exp (-bs.r * bs.T) * normCdf (-bs._d2)) / 365

/-- Embedding of `BlackScholes.vega`. -/
def vega (bs : BlackScholes) : ℝ :=
  bs.S * normPdf bs._d1 * Real.sqrt bs.T / 100

/-- Embedding of `BlackScholes.rho`. -/
def rho (bs : BlackScholes) (option_type : String) : ℝ :=
  if pyLower option_type = "call" then
    bs.K * bs.T * Real.exp (-bs.r * bs.T) * normCdf bs._d2 / 100
  else
    -bs.K * bs.T * Real.exp (-bs.r * bs.T) * normCdf (-bs._d2) / 100

end BlackScholes

/-- The dictionary returned by `BlackScholes.get_all_greeks`. -/
structure Greeks where
  delta : ℝ
  gamma : ℝ
  theta : ℝ
  vega : ℝ
  rho : ℝ

/-- Embedding of `BlackScholes.get_all_greeks`. -/
def BlackScholes.get_all_greeks (bs : BlackScholes) (option_type : String) : Greeks :=
  ⟨bs.delta option_type, bs.gamma, bs.theta option_type, bs.vega, bs.rho option_type⟩

/-- The dictionary returned by `BlackScholes.calculate_option_metrics`. -/
structure OptionMetrics where
  option_price : ℝ
  total_cost : ℝ
  breakeven : ℝ
  greeks : Greeks
  contracts : ℝ

/-- Embedding of `BlackScholes.calculate_option_metrics`. -/
def BlackScholes.calculate_option_metrics (bs : BlackScholes) (option_type : String)
    (contracts : ℝ) : OptionMetrics :=
  let option_price := if pyLower option_type = "call" then bs.call_price else bs.put_price
  let greeks := bs.get_all_greeks option_type
  let total_cost := option_price * contracts * 100
  let breakeven := if pyLower option_type = "call" then bs.K + option_price
    else bs.K - option_price
  ⟨option_price, total_cost, breakeven, greeks, contracts⟩

/-- Embedding of `BlackScholes.calculate_pnl_at_expiry`: the Python `for` loop that
appends one P&L value per input price is rendered as a `List.map`. -/
def BlackScholes.calculate_pnl_at_expiry (bs : BlackScholes) (stock_prices : List ℝ)
    (option_type : String) (contracts : ℝ) : List ℝ :=
  let option_price := if pyLower option_type = "call" then bs.call_price else bs.put_price
  let premium_paid := option_price * contracts * 100
  stock_prices.map fun price =>
    (if pyLower option_type = "call" then max 0 (price - bs.K)
      else max 0 (bs.K - price)) * contracts * 100 - premium_paid

/-- Embedding of the inner closure `bs_price` of `calculate_implied_volatility`:
the model price at a trial volatility. -/
def bs_price (stock_price strike_price time_to_expiry risk_free_rate : ℝ)
    (option_type : String) (vol : ℝ) : ℝ :=
  let bs : BlackScholes := ⟨stock_price, strike_price, time_to_expiry, risk_free_rate, vol⟩
  if pyLower option_type = "call" then bs.call_price else bs.put_price

/-- Embedding of the inner closure `bs_vega` of `calculate_implied_volatility`:
`bs.vega() * 100` converts back to the full (unscaled) vega. -/
def bs_vega (stock_price strike_price time_to_expiry risk_free_rate : ℝ) (vol : ℝ) : ℝ :=
  let bs : BlackScholes := ⟨stock_price, strike_price, time_to_expiry, risk_free_rate, vol⟩
  bs.vega * 100

/-- The clamp `if vol <= 0: vol = 0.01` applied after each Newton update. -/
def clampPos (vol : ℝ) : ℝ := if vol ≤ 0 then 0.01 else vol

/-- The Newton-Raphson loop `for i in range(max_iterations)` of
`calculate_implied_volatility`; the first `ℕ` argument is the number of
iterations still allowed. -/
def ivLoop (price vega : ℝ → ℝ) (market_price : ℝ) : ℕ → ℝ → ℝ
  | 0, vol => vol
  | n + 1, vol =>
    let price_diff := price vol - market_price
    if |price_diff| < 1e-6 then vol
    else if vega vol = 0 then vol
    else ivLoop price vega market_price n (clampPos (vol - price_diff / vega vol))

/-- Embedding of `calculate_implied_volatility`: Newton-Raphson from the initial
guess `vol = 0.2` with `max_iterations = 100`. -/
def calculate_implied_volatility (market_price stock_price strike_price
    time_to_expiry risk_free_rate : ℝ) (option_type : String) : ℝ :=
  ivLoop (bs_price stock_price strike_price time_to_expiry risk_free_rate option_type)
    (bs_vega stock_price strike_price time_to_expiry risk_free_rate)
    market_price 100 0.2

/-- Instrumented variant of `ivLoop` that also counts how many times the loop
body is entered; used to bound the iteration count. -/
def ivLoopCount (price vega : ℝ → ℝ) (market_price : ℝ) : ℕ → ℝ → ℝ × ℕ
  | 0, vol => (vol, 0)
  | n + 1, vol =>
    let price_diff := price vol - market_price
    if |price_diff| < 1e-6 then (vol, 1)
    else if vega vol = 0 then (vol, 1)
    else
      let rest := ivLoopCount price vega market_price n
        (clampPos (vol - price_diff / vega vol))
      (rest.1, rest.2 + 1)

lemma ivLoopCount_fst (price vega : ℝ → ℝ) (market_price : ℝ) :
    ∀ (n : ℕ) (vol : ℝ),
      (ivLoopCount price vega market_price n vol).1 = ivLoop price vega market_price n vol := by
  intro n
  induction n with
  | zero => intro vol; rfl
  | succ n ih =>
    intro vol
    rw [ivLoopCount, ivLoop]
    by_cases h1 : |price vol - market_price| < 1e-6
    · simp [h1]
    · by_cases h2 : vega vol = 0
      · simp [h1, h2]
      · simp only [h1, h2, if_false]
        exact ih _

lemma ivLoopCount_le (price vega : ℝ → ℝ) (market_price : ℝ) :
    ∀ (n : ℕ) (vol : ℝ), (ivLoopCount price vega market_price n vol).2 ≤ n := by
  intro n
  induction n with
  | zero => intro vol; exact le_refl 0
  | succ n ih =>
    intro vol
    rw [ivLoopCount]
    by_cases h1 : |price vol - market_price| < 1e-6
    · simp [h1]
    · by_cases h2 : vega vol = 0
      · simp [h1, h2]
      · simp only [h1, h2, if_false]
        exact Nat.succ_le_succ (ih _)

lemma clampPos_pos (vol : ℝ) : 0 < clampPos vol := by
  unfold clampPos
  by_cases h : vol ≤ 0
  · simp [h]; norm_num
  · simp [h]; linarith [not_le.mp h]

lemma clampPos_of_pos {vol : ℝ} (h : 0 < vol) : clampPos vol = vol := by
  unfold clampPos
  rw [if_neg (not_le.mpr h)]

lemma ivLoop_pos (price vega : ℝ → ℝ) (market_price : ℝ) :
    ∀ (n : ℕ) (vol : ℝ), 0 < vol → 0 < ivLoop price vega market_price n vol := by
  intro n
  induction n with
  | zero => intro vol h; exact h
  | succ n ih =>
    intro vol h
    rw [ivLoop]
    by_cases h1 : |price vol - market_price| < 1e-6
    · simpa [h1] using h
    · by_cases h2 : vega vol = 0
      · simpa [h1, h2] using h
      · simp only [h1, h2, if_false]
        exact ih _ (clampPos_pos _)

lemma ivLoop_of_vega_eq_zero (price vega : ℝ → ℝ) (market_price : ℝ)
    (n : ℕ) (vol : ℝ) (h : vega vol = 0) :
    ivLoop price vega market_price n vol = vol := by
  cases n with
  | zero => rfl
  | succ n =>
    rw [ivLoop]
    by_cases h1 : |price vol - market_price| < 1e-6
    · simp [h1]
    · simp [h1, h]

lemma put_call_parity_aux (bs : BlackScholes) :
    bs.call_price - bs.put_price = bs.S - bs.K * Real.exp (-bs.r * bs.T) := by
  unfold BlackScholes.call_price BlackScholes.put_price
  have h1 := normCdf_add_neg bs._d1
  have h2 := normCdf_add_neg bs._d2
  linear_combination bs.S * h1 - bs.K * Real.exp (-bs.r * bs.T) * h2

lemma pdf_identity (bs : BlackScholes) (hS : 0 < bs.S) (hK : 0 < bs.K)
    (hT : 0 < bs.T) (hsig : 0 < bs.sigma) :
    bs.K * Real.exp (-bs.r * bs.T) * normPdf bs._d2 = bs.S * normPdf bs._d1 := by
  have hsqT : 0 < Real.sqrt bs.T := Real.sqrt_pos.mpr hT
  have hq : 0 < bs.sigma * Real.sqrt bs.T := mul_pos hsig hsqT
  have hq2 : (bs.sigma * Real.sqrt bs.T) ^ 2 = bs.sigma ^ 2 * bs.T := by
    rw [mul_pow, Real.sq_sqrt hT.le]
  have hd1q : bs._d1 * (bs.sigma * Real.sqrt bs.T) =
      Real.log (bs.S / bs.K) + (bs.r + 0.5 * bs.sigma ^ 2) * bs.T :=
    div_mul_cancel₀ _ hq.ne'
  have hd2 : bs._d2 = bs._d1 - bs.sigma * Real.sqrt bs.T := rfl
  have key : -(bs._d2 ^ 2) / 2 =
      -(bs._d1 ^ 2) / 2 + (Real.log (bs.S / bs.K) + bs.r * bs.T) := by
    rw [hd2]
    linear_combination hd1q - (1 / 2) * hq2
  have hpdf2 : normPdf bs._d2 =
      normPdf bs._d1 * (bs.S / bs.K) * Real.exp (bs.r * bs.T) := by
    unfold normPdf
    rw [key, Real.exp_add, Real.exp_add, Real.exp_log (div_pos hS hK)]
    ring
  have hKne : bs.K ≠ 0 := ne_of_gt hK
  have h0 : -bs.r * bs.T + bs.r * bs.T = 0 := by ring
  have hee : Real.exp (-bs.r * bs.T) * Real.exp (bs.r * bs.T) = 1 := by
    rw [← Real.exp_add, h0, Real.exp_zero]
  calc bs.K * Real.exp (-bs.r * bs.T) * normPdf bs._d2
      = bs.K * Real.exp (-bs.r * bs.T) *
        (normPdf bs._d1 * (bs.S / bs.K) * Real.exp (bs.r * bs.T)) := by rw [hpdf2]
    _ = (bs.K / bs.K) * (Real.exp (-bs.r * bs.T) * Real.exp (bs.r * bs.T)) *
        (normPdf bs._d1 * bs.S) := by ring
    _ = bs.S * normPdf bs._d1 := by rw [div_self hKne, hee]; ring

lemma hasDerivAt_call_price (S K T r σ : ℝ) (hS : 0 < S) (hK : 0 < K)
    (hT : 0 < T) (hsig : 0 < σ) :
    HasDerivAt (fun s => (BlackScholes.mk S K T r s).call_price)
      (S * normPdf ((BlackScholes.mk S K T r σ)._d1) * Real.sqrt T) σ := by
  have hsqT : 0 < Real.sqrt T := Real.sqrt_pos.mpr hT
  have hne : σ * Real.sqrt T ≠ 0 := by positivity
  set A : ℝ := (σ * T * (σ * Real.sqrt T) -
      (Real.log (S / K) + (r + 0.5 * σ ^ 2) * T) * Real.sqrt T) /
      (σ * Real.sqrt T) ^ 2 with hA
  have hNum : HasDerivAt (fun s : ℝ => Real.log (S / K) + (r + 0.5 * s ^ 2) * T)
      (σ * T) σ := by
    have h1 : HasDerivAt (fun s : ℝ => s ^ 2) (2 * σ) σ := by
      simpa using hasDerivAt_pow 2 σ
    have h3 := (((h1.const_mul (0.5 : ℝ)).const_add r).mul_const T).const_add
      (Real.log (S / K))
    convert h3 using 1
    ring
  have hDen : HasDerivAt (fun s : ℝ => s * Real.sqrt T) (Real.sqrt T) σ := by
    simpa using (hasDerivAt_id σ).mul_const (Real.sqrt T)
  have hd1 : HasDerivAt
      (fun s : ℝ => (Real.log (S / K) + (r + 0.5 * s ^ 2) * T) / (s * Real.sqrt T))
      A σ := hNum.div hDen hne
  have hd2 : HasDerivAt
      (fun s : ℝ => (Real.log (S / K) + (r + 0.5 * s ^ 2) * T) / (s * Real.sqrt T) -
        s * Real.sqrt T)
      (A - Real.sqrt T) σ := hd1.sub hDen
  have hc1 : HasDerivAt
      (fun s : ℝ => normCdf ((Real.log (S / K) + (r + 0.5 * s ^ 2) * T) / (s * Real.sqrt T)))
      (normPdf ((Real.log (S / K) + (r + 0.5 * σ ^ 2) * T) / (σ * Real.sqrt T)) * A) σ :=
    (hasDerivAt_normCdf _).comp σ hd1
  have hc2 : HasDerivAt
      (fun s : ℝ => normCdf ((Real.log (S / K) + (r + 0.5 * s ^ 2) * T) / (s * Real.sqrt T) -
        s * Real.sqrt T))
      (normPdf ((Real.log (S / K) + (r + 0.5 * σ ^ 2) * T) / (σ * Real.sqrt T) -
        σ * Real.sqrt T) * (A - Real.sqrt T)) σ :=
    (hasDerivAt_normCdf _).comp σ hd2
  have hF : HasDerivAt
      (fun s : ℝ => S * normCdf ((Real.log (S / K) + (r + 0.5 * s ^ 2) * T) /
          (s * Real.sqrt T)) -
        K * Real.exp (-r * T) * normCdf ((Real.log (S / K) + (r + 0.5 * s ^ 2) * T) /
          (s * Real.sqrt T) - s * Real.sqrt T))
      (S * (normPdf ((Real.log (S / K) + (r + 0.5 * σ ^ 2) * T) / (σ * Real.sqrt T)) * A) -
        K * Real.exp (-r * T) *
          (normPdf ((Real.log (S / K) + (r + 0.5 * σ ^ 2) * T) / (σ * Real.sqrt T) -
            σ * Real.sqrt T) * (A - Real.sqrt T))) σ :=
    (hc1.const_mul S).sub (hc2.const_mul (K * Real.exp (-r * T)))
  have hkey : K * Real.exp (-r * T) *
      normPdf ((Real.log (S / K) + (r + 0.5 * σ ^ 2) * T) / (σ * Real.sqrt T) -
        σ * Real.sqrt T) =
      S * normPdf ((Real.log (S / K) + (r + 0.5 * σ ^ 2) * T) / (σ * Real.sqrt T)) :=
    pdf_identity (BlackScholes.mk S K T r σ) hS hK hT hsig
  have heq : S * (normPdf ((Real.log (S / K) + (r + 0.5 * σ ^ 2) * T) /
        (σ * Real.sqrt T)) * A) -
      K * Real.exp (-r * T) *
        (normPdf ((Real.log (S / K) + (r + 0.5 * σ ^ 2) * T) / (σ * Real.sqrt T) -
          σ * Real.sqrt T) * (A - Real.sqrt T)) =
      S * normPdf ((Real.log (S / K) + (r + 0.5 * σ ^ 2) * T) / (σ * Real.sqrt T)) *
        Real.sqrt T := by
    linear_combination (Real.sqrt T - A) * hkey
  rw [heq] at hF
  exact hF

lemma call_price_strictMonoOn (S K T r : ℝ) (hS : 0 < S) (hK : 0 < K) (hT : 0 < T) :
    StrictMonoOn (fun s => (BlackScholes.mk S K T r s).call_price) (Ioi (0:ℝ)) := by
  have hint : interior (Ioi (0:ℝ)) = Ioi 0 := isOpen_Ioi.interior_eq
  refine @strictMonoOn_of_hasDerivWithinAt_pos (Ioi (0:ℝ)) (convex_Ioi 0)
    (fun s => (BlackScholes.mk S K T r s).call_price)
    (fun s => S * normPdf ((BlackScholes.mk S K T r s)._d1) * Real.sqrt T)
    ?_ ?_ ?_
  · intro x hx
    exact (hasDerivAt_call_price S K T r x hS hK hT hx).continuousAt.continuousWithinAt
  · intro x hx
    rw [hint] at hx
    exact (hasDerivAt_call_price S K T r x hS hK hT hx).hasDerivWithinAt
  · intro x hx
    rw [hint] at hx
    exact mul_pos (mul_pos hS (normPdf_pos _)) (Real.sqrt_pos.mpr hT)

/-- C1: for every parameter set with S>0, K>0, T>0, sigma>0 and any rate r, the
call and put valuations satisfy put-call parity:
`call_price - put_price = S - K*exp(-r*T)`. -/
theorem c1_put_call_parity (bs : BlackScholes) (hS : 0 < bs.S) (hK : 0 < bs.K)
    (hT : 0 < bs.T) (hsig : 0 < bs.sigma) :
    bs.call_price - bs.put_price = bs.S - bs.K * Real.exp (-bs.r * bs.T) :=
  put_call_parity_aux bs

theorem c1_put_call_parity_witness :
    0 < (100:ℝ) ∧ 0 < (105:ℝ) ∧ 0 < (1:ℝ) ∧ 0 < (0.2:ℝ) ∧
    (BlackScholes.mk 100 105 1 0.05 0.2).call_price -
      (BlackScholes.mk 100 105 1 0.05 0.2).put_price =
      100 - 105 * Real.exp (-(0.05:ℝ) * 1) :=
  ⟨by norm_num, by norm_num, by norm_num, by norm_num,
    c1_put_call_parity (BlackScholes.mk 100 105 1 0.05 0.2)
      (by norm_num) (by norm_num) (by norm_num) (by norm_num)⟩

/-- C2: at T = 0 the code takes no special case: `_d1` still evaluates the
standard closed-form expression, whose denominator `sigma * sqrt(T)` is zero,
instead of returning the intrinsic value through a dedicated branch. -/
theorem c2_no_expiry_special_case (S K r σ : ℝ) :
    (BlackScholes.mk S K 0 r σ)._d1 =
      (Real.log (S / K) + (r + 0.5 * σ ^ 2) * 0) / (σ * Real.sqrt 0) ∧
    σ * Real.sqrt 0 = 0 :=
  ⟨rfl, by simp⟩

/-- C3: the implied-volatility solver runs its Newton loop body at most 100
times and always returns its current sigma estimate as a plain value (it is a
total function with no error outcome). -/
theorem c3_solver_bounded_total (market_price stock_price strike_price
    time_to_expiry risk_free_rate : ℝ) (option_type : String) :
    calculate_implied_volatility market_price stock_price strike_price
        time_to_expiry risk_free_rate option_type =
      (ivLoopCount
        (bs_price stock_price strike_price time_to_expiry risk_free_rate option_type)
        (bs_vega stock_price strike_price time_to_expiry risk_free_rate)
        market_price 100 0.2).1 ∧
    (ivLoopCount
        (bs_price stock_price strike_price time_to_expiry risk_free_rate option_type)
        (bs_vega stock_price strike_price time_to_expiry risk_free_rate)
        market_price 100 0.2).2 ≤ 100 :=
  ⟨(ivLoopCount_fst _ _ _ 100 0.2).symm, ivLoopCount_le _ _ _ 100 0.2⟩

/-- C4: whenever the full-scale vega at the current sigma is exactly zero, the
Newton loop terminates immediately and returns the current sigma, so the update
division is never executed with a zero divisor. -/
theorem c4_zero_vega_terminates (market_price stock_price strike_price
    time_to_expiry risk_free_rate : ℝ) (option_type : String) (fuel : ℕ) (vol : ℝ)
    (h : bs_vega stock_price strike_price time_to_expiry risk_free_rate vol = 0) :
    ivLoop (bs_price stock_price strike_price time_to_expiry risk_free_rate option_type)
      (bs_vega stock_price strike_price time_to_expiry risk_free_rate)
      market_price fuel vol = vol :=
  ivLoop_of_vega_eq_zero _ _ _ fuel vol h

theorem c4_zero_vega_terminates_witness :
    bs_vega 100 100 0 0.05 0.2 = 0 ∧
    ivLoop (bs_price 100 100 0 0.05 "call") (bs_vega 100 100 0 0.05) 1 100 0.2 = 0.2 := by
  have hv : bs_vega 100 100 0 0.05 0.2 = 0 := by
    show (BlackScholes.mk 100 100 0 0.05 0.2).vega * 100 = 0
    unfold BlackScholes.vega
    norm_num [Real.sqrt_zero]
  exact ⟨hv, c4_zero_vega_terminates 1 100 100 0 0.05 "call" 100 0.2 hv⟩

/-- C5: for S>0, K>0, T>0, sigma>0 the call delta is `Phi(d1)` and lies in
[0,1], the put delta is `Phi(d1) - 1` and lies in [-1,0], and the put delta
equals the call delta minus one exactly. -/
theorem c5_delta_bounds (bs : BlackScholes) (hS : 0 < bs.S) (hK : 0 < bs.K)
    (hT : 0 < bs.T) (hsig : 0 < bs.sigma) :
    bs.delta "call" = normCdf bs._d1 ∧
    0 ≤ bs.delta "call" ∧ bs.delta "call" ≤ 1 ∧
    bs.delta "put" = normCdf bs._d1 - 1 ∧
    -1 ≤ bs.delta "put" ∧ bs.delta "put" ≤ 0 ∧
    bs.delta "put" = bs.delta "call" - 1 := by
  have hc : pyLower "call" = "call" := by decide
  have hp : pyLower "put" ≠ "call" := by decide
  have h1 : bs.delta "call" = normCdf bs._d1 := by
    unfold BlackScholes.delta
    rw [if_pos hc]
  have h2 : bs.delta "put" = normCdf bs._d1 - 1 := by
    unfold BlackScholes.delta
    rw [if_neg hp]
  refine ⟨h1, ?_, ?_, h2, ?_, ?_, ?_⟩
  · rw [h1]; exact normCdf_nonneg _
  · rw [h1]; exact normCdf_le_one _
  · rw [h2]; linarith [normCdf_nonneg bs._d1]
  · rw [h2]; linarith [normCdf_le_one bs._d1]
  · rw [h1, h2]

theorem c5_delta_bounds_witness :
    0 ≤ (BlackScholes.mk 100 105 1 0.05 0.2).delta "call" ∧
    (BlackScholes.mk 100 105 1 0.05 0.2).delta "call" ≤ 1 ∧
    (BlackScholes.mk 100 105 1 0.05 0.2).delta "put" =
      (BlackScholes.mk 100 105 1 0.05 0.2).delta "call" - 1 := by
  have h := c5_delta_bounds (BlackScholes.mk 100 105 1 0.05 0.2)
    (by norm_num) (by norm_num) (by norm_num) (by norm_num)
  exact ⟨h.2.1, h.2.2.1, h.2.2.2.2.2.2⟩

/-- C6: for S>0, K>0, T>0, sigma>0 the gamma and vega are strictly positive,
and both are independent of the call/put side flag (the dictionary returned by
`get_all_greeks` carries the same gamma and vega for every flag value). -/
theorem c6_gamma_vega_positive (bs : BlackScholes) (hS : 0 < bs.S) (hK : 0 < bs.K)
    (hT : 0 < bs.T) (hsig : 0 < bs.sigma) :
    0 < bs.gamma ∧ 0 < bs.vega ∧
    ∀ t1 t2 : String, (bs.get_all_greeks t1).gamma = (bs.get_all_greeks t2).gamma ∧
      (bs.get_all_greeks t1).vega = (bs.get_all_greeks t2).vega := by
  have hsq : 0 < Real.sqrt bs.T := Real.sqrt_pos.mpr hT
  refine ⟨?_, ?_, fun t1 t2 => ⟨rfl, rfl⟩⟩
  · exact div_pos (normPdf_pos _) (mul_pos (mul_pos hS hsig) hsq)
  · exact div_pos (mul_pos (mul_pos hS (normPdf_pos _)) hsq) (by norm_num)

theorem c6_gamma_vega_positive_witness :
    0 < (BlackScholes.mk 100 105 1 0.05 0.2).gamma ∧
    0 < (BlackScholes.mk 100 105 1 0.05 0.2).vega := by
  have h := c6_gamma_vega_positive (BlackScholes.mk 100 105 1 0.05 0.2)
    (by norm_num) (by norm_num) (by norm_num) (by norm_num)
  exact ⟨h.1, h.2.1⟩

/-- C7: holding S>0, K>0, T>0 and r fixed, both the call and the put price are
strictly increasing in the volatility on 0 < sigma1 < sigma2. -/
theorem c7_price_strict_mono_in_vol (S K T r σ1 σ2 : ℝ) (hS : 0 < S) (hK : 0 < K)
    (hT : 0 < T) (h1 : 0 < σ1) (h12 : σ1 < σ2) :
    (BlackScholes.mk S K T r σ1).call_price < (BlackScholes.mk S K T r σ2).call_price ∧
    (BlackScholes.mk S K T r σ1).put_price < (BlackScholes.mk S K T r σ2).put_price := by
  have h2 : 0 < σ2 := lt_trans h1 h12
  have hcall := call_price_strictMonoOn S K T r hS hK hT
    (mem_Ioi.mpr h1) (mem_Ioi.mpr h2) h12
  refine ⟨hcall, ?_⟩
  have p1 := put_call_parity_aux (BlackScholes.mk S K T r σ1)
  have p2 := put_call_parity_aux (BlackScholes.mk S K T r σ2)
  dsimp only at p1 p2 hcall
  linarith

theorem c7_price_strict_mono_in_vol_witness :
    (BlackScholes.mk 100 100 1 0.05 0.1).call_price <
      (BlackScholes.mk 100 100 1 0.05 0.3).call_price ∧
    (BlackScholes.mk 100 100 1 0.05 0.1).put_price <
      (BlackScholes.mk 100 100 1 0.05 0.3).put_price :=
  c7_price_strict_mono_in_vol 100 100 1 0.05 0.1 0.3
    (by norm_num) (by norm_num) (by norm_num) (by norm_num) (by norm_num)

/-- C8: the P&L sweep returns one value per input price in input order; the
k-th value is the intrinsic payoff at the k-th price scaled by
`contracts * 100` minus the premium computed once from the initial parameters,
and at an input price equal to the strike it is exactly minus that premium. -/
theorem c8_pnl_sweep (bs : BlackScholes) (prices : List ℝ) (option_type : String)
    (contracts : ℝ) :
    (bs.calculate_pnl_at_expiry prices option_type contracts).length = prices.length ∧
    (∀ (i : ℕ) (p : ℝ), prices[i]? = some p →
      (bs.calculate_pnl_at_expiry prices option_type contracts)[i]? =
        some ((if pyLower option_type = "call" then max 0 (p - bs.K)
            else max 0 (bs.K - p)) * contracts * 100 -
          (if pyLower option_type = "call" then bs.call_price else bs.put_price) *
            contracts * 100)) ∧
    (∀ i : ℕ, prices[i]? = some bs.K →
      (bs.calculate_pnl_at_expiry prices option_type contracts)[i]? =
        some (-((if pyLower option_type = "call" then bs.call_price
            else bs.put_price) * contracts * 100))) := by
  refine ⟨?_, ?_, ?_⟩
  · simp [BlackScholes.calculate_pnl_at_expiry]
  · intro i p hp
    simp [BlackScholes.calculate_pnl_at_expiry, List.getElem?_map, hp]
  · intro i hp
    simp [BlackScholes.calculate_pnl_at_expiry, List.getElem?_map, hp]

theorem c8_pnl_sweep_witness :
    ((BlackScholes.mk 100 100 1 0.05 0.2).calculate_pnl_at_expiry [100] "call" 1)[0]? =
      some (-((if pyLower "call" = "call"
          then (BlackScholes.mk 100 100 1 0.05 0.2).call_price
          else (BlackScholes.mk 100 100 1 0.05 0.2).put_price) * 1 * 100)) :=
  (c8_pnl_sweep (BlackScholes.mk 100 100 1 0.05 0.2) [100] "call" 1).2.2 0 rfl

/-- C9: every side flag whose lowercased value is not "call" silently selects
the put branch in `delta`, `theta`, `rho`, `get_all_greeks`,
`calculate_option_metrics`, `calculate_pnl_at_expiry` and
`calculate_implied_volatility`; no flag value produces an error. -/
theorem c9_fallback_put (bs : BlackScholes) (option_type : String) (contracts : ℝ)
    (prices : List ℝ) (market_price stock_price strike_price time_to_expiry
    risk_free_rate : ℝ) (h : pyLower option_type ≠ "call") :
    bs.delta option_type = bs.delta "put" ∧
    bs.theta option_type = bs.theta "put" ∧
    bs.rho option_type = bs.rho "put" ∧
    bs.get_all_greeks option_type = bs.get_all_greeks "put" ∧
    bs.calculate_option_metrics option_type contracts =
      bs.calculate_option_metrics "put" contracts ∧
    bs.calculate_pnl_at_expiry prices option_type contracts =
      bs.calculate_pnl_at_expiry prices "put" contracts ∧
    calculate_implied_volatility market_price stock_price strike_price
        time_to_expiry risk_free_rate option_type =
      calculate_implied_volatility market_price stock_price strike_price
        time_to_expiry risk_free_rate "put" := by
  have hput : pyLower "put" ≠ "call" := by decide
  have hd : bs.delta option_type = bs.delta "put" := by
    unfold BlackScholes.delta
    rw [if_neg h, if_neg hput]
  have ht : bs.theta option_type = bs.theta "put" := by
    unfold BlackScholes.theta
    rw [if_neg h, if_neg hput]
  have hr : bs.rho option_type = bs.rho "put" := by
    unfold BlackScholes.rho
    rw [if_neg h, if_neg hput]
  have hg : bs.get_all_greeks option_type = bs.get_all_greeks "put" := by
    unfold BlackScholes.get_all_greeks
    rw [hd, ht, hr]
  have hm : bs.calculate_option_metrics option_type contracts =
      bs.calculate_option_metrics "put" contracts := by
    unfold BlackScholes.calculate_option_metrics
    rw [hg]
    simp only [if_neg h, if_neg hput]
  have hl : bs.calculate_pnl_at_expiry prices option_type contracts =
      bs.calculate_pnl_at_expiry prices "put" contracts := by
    unfold BlackScholes.calculate_pnl_at_expiry
    simp only [if_neg h, if_neg hput]
  have hpe : bs_price stock_price strike_price time_to_expiry risk_free_rate
      option_type = bs_price stock_price strike_price time_to_expiry
      risk_free_rate "put" := by
    funext vol
    unfold bs_price
    simp only [if_neg h, if_neg hput]
  have hiv : calculate_implied_volatility market_price stock_price strike_price
      time_to_expiry risk_free_rate option_type =
      calculate_implied_volatility market_price stock_price strike_price
        time_to_expiry risk_free_rate "put" := by
    unfold calculate_implied_volatility
    rw [hpe]
  exact ⟨hd, ht, hr, hg, hm, hl, hiv⟩

theorem c9_fallback_put_witness :
    (BlackScholes.mk 100 100 1 0.05 0.2).delta "c" =
      (BlackScholes.mk 100 100 1 0.05 0.2).delta "put" ∧
    calculate_implied_volatility 5 100 100 1 0.05 "c" =
      calculate_implied_volatility 5 100 100 1 0.05 "put" := by
  have h := c9_fallback_put (BlackScholes.mk 100 100 1 0.05 0.2) "c" 1 []
    5 100 100 1 0.05 (by decide)
  exact ⟨h.1, h.2.2.2.2.2.2⟩

/-- C10: the loop variable sigma stays strictly positive throughout every run
(the clamp always produces a positive value), so the returned estimate is
strictly positive; the 0.01 floor fires only when an update is ≤ 0, so an
update landing strictly between 0 and 0.01 (such as 0.005) is kept unchanged
and an estimate below 0.01 can be returned. -/
theorem c10_sigma_positive_and_floor :
    (∀ (price vega : ℝ → ℝ) (market_price : ℝ) (n : ℕ) (vol : ℝ), 0 < vol →
      0 < ivLoop price vega market_price n vol) ∧
    (∀ market_price stock_price strike_price time_to_expiry risk_free_rate
      (option_type : String),
      0 < calculate_implied_volatility market_price stock_price strike_price
        time_to_expiry risk_free_rate option_type) ∧
    (∀ vol : ℝ, 0 < vol → clampPos vol = vol) ∧
    clampPos 0.005 = 0.005 ∧ (0.005 : ℝ) < 0.01 := by
  refine ⟨?_, ?_, ?_, ?_, by norm_num⟩
  · intro price vega mp n vol h
    exact ivLoop_pos price vega mp n vol h
  · intro mp S K T r ty
    unfold calculate_implied_volatility
    exact ivLoop_pos _ _ _ 100 0.2 (by norm_num)
  · intro v hv
    exact clampPos_of_pos hv
  · exact clampPos_of_pos (by norm_num)

theorem c10_sigma_positive_and_floor_witness :
    0 < calculate_implied_volatility 5 100 100 1 0.05 "call" ∧
    clampPos 0.005 = 0.005 :=
  ⟨c10_sigma_positive_and_floor.2.1 5 100 100 1 0.05 "call",
    c10_sigma_positive_and_floor.2.2.1 0.005 (by norm_num)⟩

end
